import Mathlib

/-!
Shallow embedding of the SIMOC agent core (`agent_model/agents/core.py`).

Numeric values are modelled as exact rationals. Python dictionaries keyed by
strings are modelled as functions (`String → ℚ`) or association lists;
raised exceptions (`KeyError`, `ValueError`, `ZeroDivisionError`,
`IndexError`) are modelled by `Option` results (`none` = the Python code
raises an exception).
-/

namespace SIMOC

/-- Currency metadata from the model's currency dictionary:
`currency_data['type']` is `'currency'` or `'currency_class'`. -/
inductive CurrencyType
  | currency
  | currencyClass
  deriving DecidableEq, Repr

/-- One record of the currency dictionary: its type, its class name (for
plain currencies) and its member currencies (for currency classes). -/
structure CurrencyInfo where
  ctype : CurrencyType
  cls : String := ""
  currencies : List String := []
  deriving DecidableEq, Repr

/-- The model's currency dictionary (`self.currency_dict`); `none` models a
`KeyError` on lookup. -/
abbrev CurrencyDict := String → Option CurrencyInfo

/-- `StorageAgent` state: per-currency balances and capacities.
`declared` lists the currencies for which a `char_capacity_<currency>`
characteristic (and hence a balance attribute) was declared in
`StorageAgent.__init__`; `capacity c` is `self['char_capacity_' + c]`
(including the derived currency-class capacities); `balance c` is `self[c]`;
`amount` is the agent's instance count `self.amount`. -/
structure StorageAgent where
  declared : List String
  capacity : String → ℚ
  balance : String → ℚ
  amount : ℚ

/-- Assignment `self[c] = v` on a storage agent. -/
def setBalance (s : StorageAgent) (c : String) (v : ℚ) : StorageAgent :=
  { s with balance := Function.update s.balance c v }

/-- `StorageAgent.view`: resolves a view name to the list of member
currencies whose balances it covers (a currency resolves to itself, a
currency class to its members that have a balance attribute on this agent).
`none` models the `KeyError` raised for an unknown view or a currency with
no balance attribute. -/
def StorageAgent.viewCurrencies (cd : CurrencyDict) (s : StorageAgent) (v : String) :
    Option (List String) :=
  match cd v with
  | none => none
  | some info =>
    match info.ctype with
    | CurrencyType.currency => if s.declared.contains v then some [v] else none
    | CurrencyType.currencyClass =>
        some (info.currencies.filter (fun c => s.declared.contains c))

/-- Loop body of the negative branch of `StorageAgent.increment`: `s` is the
agent as it was when the ratios were computed (the ratios read `self[c]`
before the loop), the accumulator carries the mutated agent and the `flow`
dict built so far. -/
def incrementNegStep (s : StorageAgent) (incrementAmount totalViewAmount : ℚ)
    (acc : StorageAgent × List (String × ℚ)) (c : String) :
    StorageAgent × List (String × ℚ) :=
  let currencyIncrementTarget := incrementAmount * (s.balance c / totalViewAmount)
  let bal := acc.1.balance c
  let currencyAmount := max (bal + currencyIncrementTarget) 0
  let currencyIncrementActual := bal - currencyAmount
  (setBalance acc.1 c currencyAmount, acc.2 ++ [(c, currencyIncrementActual)])

/-- `StorageAgent.increment`: increase or decrease storage balances.
Mirrors `core.py` lines 208-250: a positive amount requires a plain currency
and is clamped at `char_capacity * amount`; a negative amount is split over
the view's member currencies in proportion to their share of the view total
(computed before the loop), each floored at 0; a zero amount is a no-op.
Returns the mutated agent and the `flow` dict of `self[c] - new_balance`
values; `none` models the `KeyError` / `ValueError` paths. -/
def StorageAgent.increment (cd : CurrencyDict) (s : StorageAgent) (view : String)
    (incrementAmount : ℚ) : Option (StorageAgent × List (String × ℚ)) :=
  if 0 < incrementAmount then
    match cd view with
    | none => none
    | some info =>
      if info.ctype ≠ CurrencyType.currency then none
      else if ¬ s.declared.contains view then none
      else
        let cap := s.capacity view * s.amount
        let currencyAmount := min (s.balance view + incrementAmount) cap
        let currencyIncrementActual := s.balance view - currencyAmount
        some (setBalance s view currencyAmount, [(view, currencyIncrementActual)])
  else if incrementAmount < 0 then
    match s.viewCurrencies cd view with
    | none => none
    | some cs =>
      let totalViewAmount := (cs.map s.balance).sum
      if totalViewAmount ≤ 0 then
        some (s, cs.map (fun c => (c, 0)))
      else
        some (cs.foldl (incrementNegStep s incrementAmount totalViewAmount) (s, []))
  else
    some (s, [])

/-- Storage invariant claimed by the spec: every declared currency's balance
lies between 0 and `capacity * amount`. -/
def inBounds (s : StorageAgent) : Prop :=
  ∀ c ∈ s.declared, 0 ≤ s.balance c ∧ s.balance c ≤ s.capacity c * s.amount

instance (s : StorageAgent) : Decidable (inBounds s) := by
  unfold inBounds; infer_instance

/-- Apply a finite sequence of `increment` calls; a call that raises leaves
the state unchanged (both exception paths of `increment` raise before any
mutation). -/
def applyIncrements (cd : CurrencyDict) (s : StorageAgent) (ops : List (String × ℚ)) :
    StorageAgent :=
  ops.foldl (fun t op =>
    match StorageAgent.increment cd t op.1 op.2 with
    | none => t
    | some r => r.1) s

/-- Concrete currency dictionary with two water currencies and their class. -/
def waterDict : CurrencyDict := fun n =>
  if n = "potable" then some ⟨CurrencyType.currency, "water", []⟩
  else if n = "grey" then some ⟨CurrencyType.currency, "water", []⟩
  else if n = "water" then some ⟨CurrencyType.currencyClass, "", ["potable", "grey"]⟩
  else none

/-- An empty water tank with capacity 100 for each currency. -/
def tank0 : StorageAgent :=
  { declared := ["potable", "grey"]
    capacity := fun _ => 100
    balance := fun _ => 0
    amount := 1 }

/-- A water tank holding 30 potable and 10 grey water. -/
def tank1 : StorageAgent :=
  { declared := ["potable", "grey"]
    capacity := fun _ => 100
    balance := fun c => if c = "potable" then 30 else if c = "grey" then 10 else 0
    amount := 1 }

lemma min_add_sub (b a cap : ℚ) : min (b + a) cap = b + min a (cap - b) := by
  rcases le_total a (cap - b) with h | h
  · rw [min_eq_left (by linarith), min_eq_left h]
  · rw [min_eq_right (by linarith), min_eq_right h]; ring

/-- C1 counterexample: a positive increment of 150 into a storage with
capacity 100 and balance 0 sets the balance to 100, but the returned flow
entry is `-100` (old balance minus new balance), not the claimed actually
applied amount `min(150, 100·1 - 0) = 100`. -/
theorem C1_counterexample :
    (StorageAgent.increment waterDict tank0 "potable" 150).map
        (fun r => (r.1.balance "potable", r.2)) = some (100, [("potable", -100)]) ∧
      ((-100 : ℚ) ≠ min 150 (100 * 1 - 0)) := by
  constructor
  · simp [StorageAgent.increment, waterDict, tank0, setBalance]
    norm_num
  · norm_num

/-- C1 (amended): for a positive increment into a currency view with
declared capacity, the balance is set to `min(old + a, capacity · amount)`,
and the returned map has a single entry for that currency whose value is the
**negative** of the amount actually applied, i.e. `-(min a (capacity ·
amount - old))` (old balance minus new balance); under the storage bounds
that applied amount is nonnegative, so excess is silently dropped. -/
theorem C1_amended (cd : CurrencyDict) (s : StorageAgent) (c : String) (a : ℚ)
    (info : CurrencyInfo) (hcd : cd c = some info)
    (hty : info.ctype = CurrencyType.currency)
    (hdecl : s.declared.contains c = true) (ha : 0 < a)
    (_hlo : 0 ≤ s.balance c) (hhi : s.balance c ≤ s.capacity c * s.amount) :
    StorageAgent.increment cd s c a =
      some (setBalance s c (min (s.balance c + a) (s.capacity c * s.amount)),
        [(c, -(min a (s.capacity c * s.amount - s.balance c)))]) ∧
      0 ≤ min a (s.capacity c * s.amount - s.balance c) := by
  refine ⟨?_, le_min ha.le (by linarith)⟩
  unfold StorageAgent.increment
  rw [if_pos ha, hcd]
  simp only [hty, hdecl]
  rw [min_add_sub]
  norm_num

/-- C1 amended witness: the 150-into-capacity-100 example evaluated through
the amended theorem. -/
theorem C1_amended_witness :
    StorageAgent.increment waterDict tank0 "potable" 150 =
      some (setBalance tank0 "potable"
          (min (tank0.balance "potable" + 150)
            (tank0.capacity "potable" * tank0.amount)),
        [("potable",
          -(min 150 (tank0.capacity "potable" * tank0.amount -
              tank0.balance "potable")))]) ∧
      0 ≤ min (150 : ℚ)
        (tank0.capacity "potable" * tank0.amount - tank0.balance "potable") :=
  C1_amended waterDict tank0 "potable" 150 ⟨CurrencyType.currency, "water", []⟩
    rfl rfl rfl (by norm_num) (by norm_num [tank0]) (by norm_num [tank0])

/-- Characterization of the fold in the negative branch of `increment`: with
distinct member currencies, each member's balance becomes the floored
proportional decrement (ratios taken from the pre-loop balances of `s`), the
flow records old minus new balance per member, and balances outside the view
are untouched. -/
lemma incrementNeg_foldl_spec (s : StorageAgent) (a T : ℚ) :
    ∀ (cs : List String) (t : StorageAgent) (fl : List (String × ℚ)),
      cs.Nodup → (∀ c ∈ cs, t.balance c = s.balance c) →
      (cs.foldl (incrementNegStep s a T) (t, fl)).2 =
          fl ++ cs.map (fun c =>
            (c, s.balance c - max (s.balance c + a * (s.balance c / T)) 0)) ∧
        (∀ c ∈ cs, (cs.foldl (incrementNegStep s a T) (t, fl)).1.balance c =
          max (s.balance c + a * (s.balance c / T)) 0) ∧
        (∀ c, c ∉ cs →
          (cs.foldl (incrementNegStep s a T) (t, fl)).1.balance c = t.balance c) := by
  intro cs
  induction cs with
  | nil => intro t fl _ _; simp
  | cons c cs ih =>
    intro t fl hnd hbal
    obtain ⟨hcnotin, hnd'⟩ := List.nodup_cons.mp hnd
    have hc : t.balance c = s.balance c := hbal c (by simp)
    have hstep : incrementNegStep s a T (t, fl) c =
        (setBalance t c (max (s.balance c + a * (s.balance c / T)) 0),
          fl ++ [(c, s.balance c - max (s.balance c + a * (s.balance c / T)) 0)]) := by
      simp [incrementNegStep, hc]
    rw [List.foldl_cons, hstep]
    have hbal' : ∀ c' ∈ cs, (setBalance t c
        (max (s.balance c + a * (s.balance c / T)) 0)).balance c' = s.balance c' := by
      intro c' hc'
      have hne : c' ≠ c := fun h => hcnotin (h ▸ hc')
      simp only [setBalance, Function.update_noteq hne]
      exact hbal c' (by simp [hc'])
    obtain ⟨ihfl, ihmem, ihout⟩ := ih _ _ hnd' hbal'
    refine ⟨?_, ?_, ?_⟩
    · rw [ihfl]; simp
    · intro c' hc'
      rcases List.mem_cons.mp hc' with h | h
      · subst h
        rw [ihout c' hcnotin]
        simp only [setBalance, Function.update_same]
      · exact ihmem c' h
    · intro c' hc'
      have h1 : c' ≠ c := fun h => hc' (h ▸ List.mem_cons_self c cs)
      have h2 : c' ∉ cs := fun h => hc' (List.mem_cons_of_mem c h)
      rw [ihout c' h2]
      simp only [setBalance, Function.update_noteq h1]

/-- C2: a negative increment on a currency or currency-class view splits the
decrement over the member currencies in proportion to each member's share of
the pre-call view total, floors each member at 0, and returns per member the
amount actually removed (old minus new balance); if the view total is
nonpositive, nothing changes and all members report a zero delta. -/
theorem C2_proportional_split (cd : CurrencyDict) (s : StorageAgent) (v : String)
    (a : ℚ) (cs : List String) (ha : a < 0)
    (hview : s.viewCurrencies cd v = some cs) (hnd : cs.Nodup) :
    ((cs.map s.balance).sum ≤ 0 →
      StorageAgent.increment cd s v a = some (s, cs.map (fun c => (c, 0)))) ∧
    (0 < (cs.map s.balance).sum → ∃ s',
      StorageAgent.increment cd s v a = some (s', cs.map (fun c =>
        (c, s.balance c -
          max (s.balance c + a * (s.balance c / (cs.map s.balance).sum)) 0))) ∧
      (∀ c ∈ cs, s'.balance c =
        max (s.balance c + a * (s.balance c / (cs.map s.balance).sum)) 0) ∧
      (∀ c, c ∉ cs → s'.balance c = s.balance c)) := by
  have hnotpos : ¬ (0 < a) := by linarith
  constructor
  · intro hT
    unfold StorageAgent.increment
    rw [if_neg hnotpos, if_pos ha, hview]
    simp only [if_pos hT]
  · intro hT
    unfold StorageAgent.increment
    rw [if_neg hnotpos, if_pos ha, hview]
    simp only [if_neg (not_le.mpr hT)]
    obtain ⟨hfl, hmem, hout⟩ :=
      incrementNeg_foldl_spec s a ((cs.map s.balance).sum) cs s [] hnd
        (fun _ _ => rfl)
    refine ⟨(cs.foldl (incrementNegStep s a ((cs.map s.balance).sum)) (s, [])).1,
      ?_, hmem, hout⟩
    refine congrArg some (Prod.ext_iff.mpr ⟨rfl, ?_⟩)
    rw [hfl]; simp

/-- C2 witness: the spec's water example — decrementing the class view
"water" with members potable=30 and grey=10 by 20 removes 15 from potable
and 5 from grey. -/
theorem C2_witness :
    (((["potable", "grey"].map tank1.balance).sum ≤ 0 →
      StorageAgent.increment waterDict tank1 "water" (-20) =
        some (tank1, ["potable", "grey"].map (fun c => (c, 0)))) ∧
    (0 < (["potable", "grey"].map tank1.balance).sum → ∃ s',
      StorageAgent.increment waterDict tank1 "water" (-20) =
        some (s', ["potable", "grey"].map (fun c =>
          (c, tank1.balance c - max (tank1.balance c +
            (-20) * (tank1.balance c / (["potable", "grey"].map tank1.balance).sum)) 0))) ∧
      (∀ c ∈ ["potable", "grey"], s'.balance c =
        max (tank1.balance c +
          (-20) * (tank1.balance c / (["potable", "grey"].map tank1.balance).sum)) 0) ∧
      (∀ c, c ∉ ["potable", "grey"] → s'.balance c = tank1.balance c))) ∧
    (StorageAgent.increment waterDict tank1 "water" (-20)).map (fun r => r.2) =
      some [("potable", 15), ("grey", 5)] := by
  refine ⟨C2_proportional_split waterDict tank1 "water" (-20) ["potable", "grey"]
    (by norm_num) (by simp [StorageAgent.viewCurrencies, waterDict, tank1]) (by simp), ?_⟩
  simp [StorageAgent.increment, waterDict, tank1, setBalance,
    StorageAgent.viewCurrencies, incrementNegStep]
  norm_num

lemma viewCurrencies_subset (cd : CurrencyDict) (s : StorageAgent) (v : String)
    (cs : List String) (h : s.viewCurrencies cd v = some cs) :
    ∀ c ∈ cs, c ∈ s.declared := by
  unfold StorageAgent.viewCurrencies at h
  cases hcd : cd v with
  | none => rw [hcd] at h; cases h
  | some info =>
    rw [hcd] at h
    obtain ⟨ty, cls, curs⟩ := info
    cases ty with
    | currency =>
      have h' : (if s.declared.contains v = true then some [v] else none) = some cs := h
      by_cases hmem : s.declared.contains v
      · rw [if_pos hmem] at h'
        obtain rfl : [v] = cs := by injection h'
        intro c hc
        obtain rfl : c = v := by simpa using hc
        simpa using hmem
      · rw [if_neg (by simpa using hmem)] at h'; cases h'
    | currencyClass =>
      have h' : some (curs.filter (fun c => s.declared.contains c)) = some cs := h
      obtain rfl : curs.filter (fun c => s.declared.contains c) = cs := by injection h'
      intro c hc
      have := (List.mem_filter.mp hc).2
      simpa using this

/-- Each step of the negative-branch fold keeps every declared balance in
`[0, capacity · amount]`, provided the ratio numerators (the pre-loop
balances of the members) are nonnegative and the view total is positive. -/
lemma incrementNeg_foldl_inBounds (s : StorageAgent) (a T : ℚ) (ha : a < 0)
    (hT : 0 < T) (hs : ∀ c ∈ s.declared, 0 ≤ s.balance c) :
    ∀ (cs : List String) (t : StorageAgent) (fl : List (String × ℚ)),
      (∀ c ∈ cs, c ∈ s.declared) →
      t.declared = s.declared → t.capacity = s.capacity → t.amount = s.amount →
      inBounds t →
      inBounds (cs.foldl (incrementNegStep s a T) (t, fl)).1 := by
  intro cs
  induction cs with
  | nil => intro t fl _ _ _ _ ht; exact ht
  | cons c cs ih =>
    intro t fl hsub hdecl hcap hamt ht
    rw [List.foldl_cons]
    have hcs : c ∈ s.declared := hsub c (by simp)
    have htarget : a * (s.balance c / T) ≤ 0 := by
      have h0 : 0 ≤ s.balance c / T := div_nonneg (hs c hcs) hT.le
      exact mul_nonpos_iff.mpr (Or.inr ⟨ha.le, h0⟩)
    refine ih (setBalance t c (max (t.balance c + a * (s.balance c / T)) 0)) _
      (fun c' hc' => hsub c' (by simp [hc'])) hdecl hcap hamt ?_
    intro d hd
    have hd' : d ∈ t.declared := hd
    by_cases hdc : d = c
    · subst hdc
      obtain ⟨hd0, hd1⟩ := ht d hd'
      constructor
      · simp [setBalance, Function.update_same]
      · simp only [setBalance, Function.update_same]
        have hcap0 : 0 ≤ t.capacity d * t.amount := le_trans hd0 hd1
        exact max_le (by linarith) hcap0
    · obtain ⟨hd0, hd1⟩ := ht d hd'
      constructor
      · simpa [setBalance, Function.update_noteq hdc] using hd0
      · simpa [setBalance, Function.update_noteq hdc] using hd1

/-- A single (possibly failing) `increment` call preserves the storage
bounds; the exception paths mutate nothing. -/
lemma increment_preserves_inBounds (cd : CurrencyDict) (s : StorageAgent)
    (v : String) (a : ℚ) (hs : inBounds s) :
    inBounds (match StorageAgent.increment cd s v a with
      | none => s
      | some r => r.1) := by
  unfold StorageAgent.increment
  by_cases hpos : 0 < a
  · rw [if_pos hpos]
    cases hcd : cd v with
    | none => exact hs
    | some info =>
      by_cases hty : info.ctype ≠ CurrencyType.currency
      · simp only [if_pos hty]; exact hs
      · simp only [if_neg hty]
        by_cases hmem : ¬ s.declared.contains v
        · simp only [if_pos hmem]; exact hs
        · simp only [if_neg hmem]
          intro d hd
          have hv : v ∈ s.declared := by
            have := not_not.mp hmem; simpa using this
          by_cases hdv : d = v
          · subst hdv
            obtain ⟨h0, h1⟩ := hs d hd
            constructor
            · simp only [setBalance, Function.update_same]
              exact le_min (by linarith) (le_trans h0 h1)
            · simp only [setBalance, Function.update_same]
              exact min_le_right _ _
          · obtain ⟨h0, h1⟩ := hs d hd
            constructor
            · simpa [setBalance, Function.update_noteq hdv] using h0
            · simpa [setBalance, Function.update_noteq hdv] using h1
  · rw [if_neg hpos]
    by_cases hneg : a < 0
    · rw [if_pos hneg]
      cases hview : s.viewCurrencies cd v with
      | none => exact hs
      | some cs =>
        by_cases hT : (cs.map s.balance).sum ≤ 0
        · simp only [if_pos hT]; exact hs
        · simp only [if_neg hT]
          exact incrementNeg_foldl_inBounds s a _ hneg (not_le.mp hT)
            (fun c hc => (hs c hc).1) cs s []
            (viewCurrencies_subset cd s v cs hview) rfl rfl rfl hs
    · rw [if_neg hneg]; exact hs

/-- C3: starting from balances satisfying `0 ≤ balance[c] ≤ capacity[c] ·
amount` for every declared currency, any finite sequence of `increment`
calls (positive, negative or zero amounts; calls that raise leave the state
unchanged) keeps those bounds. -/
theorem C3_bounds_preserved (cd : CurrencyDict) (s : StorageAgent)
    (ops : List (String × ℚ)) (hs : inBounds s) :
    inBounds (applyIncrements cd s ops) := by
  induction ops generalizing s with
  | nil => exact hs
  | cons op ops ih =>
    have hstep := increment_preserves_inBounds cd s op.1 op.2 hs
    have : applyIncrements cd s (op :: ops) =
        applyIncrements cd (match StorageAgent.increment cd s op.1 op.2 with
          | none => s
          | some r => r.1) ops := by
      simp [applyIncrements]
    rw [this]
    exact ih _ hstep

/-- C3 witness: a concrete sequence of increments on the 30/10 water tank
keeps all balances within bounds. -/
theorem C3_witness :
    inBounds (applyIncrements waterDict tank1
      [("potable", 150), ("water", -20), ("grey", -5), ("potable", 0)]) :=
  C3_bounds_preserved waterDict tank1 _
    (by intro c hc; fin_cases hc <;> simp [tank1] <;> norm_num)

/-- Result of the deprivation branch of `GeneralAgent.step` (core.py
699-711): the reduced exchange value, the remaining deprive budget, the new
instance count, and whether the agent is killed (`self.amount <= 0`). -/
structure DepriveOutcome where
  actualValue : ℚ
  deprive : ℚ
  amount : ℤ
  killed : Bool
  deriving DecidableEq, Repr

/-- Deprivation accounting on a deficit (core.py 699-711): `n_satisfied =
floor(available / step_mag)`, `actual = n_satisfied * step_mag`,
`max_survive = floor(max(deprive, 0) / delta_per_step)`, survivors consume
budget at `delta_per_step`, the rest are removed from `amount`, and the
agent is killed when the new amount is `<= 0`. -/
def depriveUpdate (amount : ℤ) (depriveBudget stepMag availableValue deltaPerStep : ℚ) :
    DepriveOutcome :=
  let nSatisfied : ℤ := ⌊availableValue / stepMag⌋
  let actualValue := (nSatisfied : ℚ) * stepMag
  let maxSurvive : ℤ := ⌊max depriveBudget 0 / deltaPerStep⌋
  let nDeprived := amount - nSatisfied
  let nSurvive := min nDeprived maxSurvive
  let newDeprive := depriveBudget - deltaPerStep * (nSurvive : ℚ)
  let nDie := nDeprived - nSurvive
  let newAmount := amount - nDie
  { actualValue := actualValue, deprive := newDeprive, amount := newAmount,
    killed := decide (newAmount ≤ 0) }

/-- Budget replenishment on a no-deficit step (core.py 712-714):
`deprive = min(deprive_value * amount, deprive + deprive_value)`. -/
def depriveReplenish (amount : ℤ) (depriveBudget depriveValue : ℚ) : ℚ :=
  min (depriveValue * (amount : ℚ)) (depriveBudget + depriveValue)

/-- C4: on an 'in' deficit with a deprivation budget, the number of fully
satisfied instances is `floor(available / per-instance target)`; the actual
exchanged quantity becomes that count times the per-instance target; exactly
`min(amount - satisfied, floor(max(budget, 0) / rate))` of the unsatisfied
instances survive, consuming the budget at the per-step rate; the rest are
permanently removed from `amount`; the agent is killed iff `amount` reaches
0; and with no deficit the budget is replenished by the deprive value up to
the ceiling `deprive_value * amount`. -/
theorem C4_deprivation (amount : ℤ)
    (depriveBudget stepMag availableValue deltaPerStep depriveValue : ℚ)
    (hav : 0 ≤ availableValue) (hmag : 0 < stepMag) (hdelta : 0 < deltaPerStep)
    (hdef : availableValue < stepMag * (amount : ℚ)) :
    (depriveUpdate amount depriveBudget stepMag availableValue deltaPerStep).actualValue =
        (⌊availableValue / stepMag⌋ : ℚ) * stepMag ∧
      (depriveUpdate amount depriveBudget stepMag availableValue deltaPerStep).amount =
        amount - ((amount - ⌊availableValue / stepMag⌋) -
          min (amount - ⌊availableValue / stepMag⌋) ⌊max depriveBudget 0 / deltaPerStep⌋) ∧
      (depriveUpdate amount depriveBudget stepMag availableValue deltaPerStep).deprive =
        depriveBudget - deltaPerStep *
          ((min (amount - ⌊availableValue / stepMag⌋)
            ⌊max depriveBudget 0 / deltaPerStep⌋ : ℤ) : ℚ) ∧
      ((depriveUpdate amount depriveBudget stepMag availableValue deltaPerStep).killed =
          true ↔
        (depriveUpdate amount depriveBudget stepMag availableValue deltaPerStep).amount = 0) ∧
      depriveReplenish amount depriveBudget depriveValue =
        min (depriveValue * (amount : ℚ)) (depriveBudget + depriveValue) := by
  refine ⟨rfl, rfl, rfl, ?_, rfl⟩
  have hsat0 : 0 ≤ ⌊availableValue / stepMag⌋ :=
    Int.floor_nonneg.mpr (div_nonneg hav hmag.le)
  have hsatlt : ⌊availableValue / stepMag⌋ < amount := by
    rw [Int.floor_lt]
    rw [div_lt_iff₀ hmag]
    linarith
  have hmax0 : 0 ≤ ⌊max depriveBudget 0 / deltaPerStep⌋ :=
    Int.floor_nonneg.mpr (div_nonneg (le_max_right _ _) hdelta.le)
  have hamt : (depriveUpdate amount depriveBudget stepMag availableValue
      deltaPerStep).amount =
      amount - ((amount - ⌊availableValue / stepMag⌋) -
        min (amount - ⌊availableValue / stepMag⌋) ⌊max depriveBudget 0 / deltaPerStep⌋) :=
    rfl
  have hkill : (depriveUpdate amount depriveBudget stepMag availableValue
      deltaPerStep).killed =
      decide ((depriveUpdate amount depriveBudget stepMag availableValue
        deltaPerStep).amount ≤ 0) := rfl
  rw [hkill, hamt, decide_eq_true_iff]
  omega

/-- C4 witness: 10 instances, budget 5, per-instance target 1, 7 available,
rate 1 per step — 7 satisfied, 3 survive on the budget, none die. -/
theorem C4_deprivation_witness :
    (depriveUpdate 10 5 1 7 1).actualValue = (⌊(7 : ℚ) / 1⌋ : ℚ) * 1 ∧
      (depriveUpdate 10 5 1 7 1).amount =
        10 - ((10 - ⌊(7 : ℚ) / 1⌋) - min (10 - ⌊(7 : ℚ) / 1⌋) ⌊max (5 : ℚ) 0 / 1⌋) ∧
      (depriveUpdate 10 5 1 7 1).deprive =
        5 - 1 * ((min (10 - ⌊(7 : ℚ) / 1⌋) ⌊max (5 : ℚ) 0 / 1⌋ : ℤ) : ℚ) ∧
      ((depriveUpdate 10 5 1 7 1).killed = true ↔ (depriveUpdate 10 5 1 7 1).amount = 0) ∧
      depriveReplenish 10 5 5 = min ((5 : ℚ) * (10 : ℤ)) (5 + 5) :=
  C4_deprivation 10 5 1 7 1 5 (by norm_num) (by norm_num) (by norm_num) (by norm_num)

/-- Comparison operators admitted by the criteria gate
(`{'>': operator.gt, '<': operator.lt, '=': operator.eq}`). -/
inductive CrLimit
  | gt
  | lt
  | eq
  deriving DecidableEq, Repr

/-- Criteria configuration of a flow attribute: `criteria_name` (absent =
no gate), `criteria_limit`, `criteria_value or 0.0`,
`criteria_buffer or 0.0`. -/
structure CriteriaSpec where
  name : Option String
  limit : CrLimit := CrLimit.gt
  value : ℚ := 0
  buffer : ℚ := 0
  deriving Repr

/-- `opp(source, cr_value)` from `_get_step_value`. -/
def crCompare : CrLimit → ℚ → ℚ → Bool
  | CrLimit.gt, a, b => decide (b < a)
  | CrLimit.lt, a, b => decide (a < b)
  | CrLimit.eq, a, b => decide (a = b)

/-- Curve lookup of `_get_step_value` (core.py 538-541): indices past the
end of the precomputed sequence wrap to `step_num % day_length_hours`;
`none` models the `IndexError` when even the wrapped index is out of range. -/
def stepValuesLookup (stepValues : List ℚ) (stepNum dayLengthHours : ℕ) : Option ℚ :=
  stepValues.get? (if stepValues.length ≤ stepNum then stepNum % dayLengthHours else stepNum)

/-- `GeneralAgent._get_step_value` (core.py 506-541) without the unit
wrapper: given the criteria configuration, the resolved criteria source
value, the current buffer entry (`self.buffer.get(attr, 0)`), the
precomputed step values and the step number, returns the step value and the
new buffer entry. -/
def getStepValue (crit : CriteriaSpec) (source bufferState : ℚ)
    (stepValues : List ℚ) (stepNum dayLengthHours : ℕ) : Option (ℚ × ℚ) :=
  match crit.name with
  | some _ =>
    if crCompare crit.limit source crit.value then
      if 0 < crit.buffer ∧ 0 < bufferState then some (0, bufferState - 1)
      else (stepValuesLookup stepValues stepNum dayLengthHours).map
        (fun v => (v, bufferState))
    else
      if 0 < crit.buffer then some (0, crit.buffer)
      else some (0, bufferState)
  | none =>
    (stepValuesLookup stepValues stepNum dayLengthHours).map (fun v => (v, bufferState))

/-- C5 counterexample: with a criteria gate `> 3`, source 5 (a passing
comparison), configured buffer 2 and remaining buffer 2, the code suppresses
the flow (step value 0) and decrements the buffer — the claim instead says a
passing comparison is a pass-through yielding the curve value 7. -/
theorem C5_counterexample :
    getStepValue ⟨some "test_ratio", CrLimit.gt, 3, 2⟩ 5 2 [7] 0 24 = some (0, 1) ∧
      (((0 : ℚ), (1 : ℚ)) ≠ ((7 : ℚ), (2 : ℚ))) := by
  constructor
  · simp [getStepValue, crCompare]
    norm_num
  · intro h
    have := congrArg Prod.fst h
    norm_num at this

/-- C5 (amended): the criteria gate works the other way around: a FAILING
comparison immediately suppresses the flow (zero step value) and refills the
buffer to its configured size (leaving it unchanged when no buffer is
configured); a PASSING comparison consumes one unit of remaining buffer and
still suppresses the flow while both the configured and the remaining buffer
are positive, and only passes the curve value through otherwise. -/
theorem C5_amended (crit : CriteriaSpec) (n : String) (hname : crit.name = some n)
    (source bufferState : ℚ) (stepValues : List ℚ) (stepNum dayLengthHours : ℕ) :
    (crCompare crit.limit source crit.value = false →
      getStepValue crit source bufferState stepValues stepNum dayLengthHours =
        some (0, if 0 < crit.buffer then crit.buffer else bufferState)) ∧
    (crCompare crit.limit source crit.value = true →
      0 < crit.buffer → 0 < bufferState →
      getStepValue crit source bufferState stepValues stepNum dayLengthHours =
        some (0, bufferState - 1)) ∧
    (crCompare crit.limit source crit.value = true →
      ¬ (0 < crit.buffer ∧ 0 < bufferState) →
      getStepValue crit source bufferState stepValues stepNum dayLengthHours =
        (stepValuesLookup stepValues stepNum dayLengthHours).map
          (fun v => (v, bufferState))) := by
  refine ⟨?_, ?_, ?_⟩
  · intro hcmp
    unfold getStepValue
    rw [hname]
    simp only [hcmp, Bool.false_eq_true, if_false]
    by_cases hb : 0 < crit.buffer
    · rw [if_pos hb, if_pos hb]
    · rw [if_neg hb, if_neg hb]
  · intro hcmp hb hbs
    unfold getStepValue
    rw [hname]
    simp only [hcmp, if_true]
    rw [if_pos ⟨hb, hbs⟩]
  · intro hcmp hnb
    unfold getStepValue
    rw [hname]
    simp only [hcmp, if_true]
    rw [if_neg hnb]

/-- C5 amended witness: the three gate branches at concrete inputs. -/
theorem C5_amended_witness :
    ((crCompare CrLimit.gt 5 3 = false →
      getStepValue ⟨some "test_ratio", CrLimit.gt, 3, 2⟩ 5 2 [7] 0 24 =
        some (0, if 0 < (2 : ℚ) then 2 else 2)) ∧
    (crCompare CrLimit.gt 5 3 = true → 0 < (2 : ℚ) → 0 < (2 : ℚ) →
      getStepValue ⟨some "test_ratio", CrLimit.gt, 3, 2⟩ 5 2 [7] 0 24 =
        some (0, 2 - 1)) ∧
    (crCompare CrLimit.gt 5 3 = true → ¬ (0 < (2 : ℚ) ∧ 0 < (2 : ℚ)) →
      getStepValue ⟨some "test_ratio", CrLimit.gt, 3, 2⟩ 5 2 [7] 0 24 =
        (stepValuesLookup [7] 0 24).map (fun v => (v, 2)))) ∧
    getStepValue ⟨some "test_ratio", CrLimit.gt, 3, 2⟩ 5 2 [7] 0 24 = some (0, 1) := by
  refine ⟨C5_amended ⟨some "test_ratio", CrLimit.gt, 3, 2⟩ "test_ratio" rfl 5 2 [7] 0 24, ?_⟩
  simp [getStepValue, crCompare]
  norm_num

/-- C10: when the criteria gate passes through (here: no criteria declared)
and the step index is at least the length of the precomputed sequence, the
returned step value is the sequence entry at index
`step_num % day_length_hours` — the lookup silently wraps within the day
cycle. -/
theorem C10_wraparound (crit : CriteriaSpec) (hname : crit.name = none)
    (source bufferState : ℚ) (stepValues : List ℚ) (stepNum dayLengthHours : ℕ)
    (hge : stepValues.length ≤ stepNum)
    (hlt : stepNum % dayLengthHours < stepValues.length) :
    getStepValue crit source bufferState stepValues stepNum dayLengthHours =
      some (stepValues.get ⟨stepNum % dayLengthHours, hlt⟩, bufferState) := by
  unfold getStepValue
  rw [hname]
  unfold stepValuesLookup
  rw [if_pos hge, List.get?_eq_get hlt]
  rfl

/-- C10 witness: a 24-entry day with step index 30 reads entry 30 % 24 = 6. -/
theorem C10_wraparound_witness :
    getStepValue ⟨none, CrLimit.gt, 0, 0⟩ 0 0
        [0, 1, 2, 3, 4, 5, 60, 7, 8, 9, 10, 11, 12, 13, 14, 15, 16, 17, 18, 19,
          20, 21, 22, 23] 30 24 =
      some ([0, 1, 2, 3, 4, 5, 60, 7, 8, 9, 10, 11, 12, 13, 14, 15, 16, 17, 18,
          19, 20, 21, 22, 23].get ⟨30 % 24, by norm_num⟩, 0) :=
  C10_wraparound ⟨none, CrLimit.gt, 0, 0⟩ rfl 0 0 _ 30 24 (by norm_num) (by norm_num)

/-- `conn_delta` sequence of the exchange loop for direction 'in' (core.py
717-726): each connection is drained by `min(remaining, conn['value'])`,
decreasing the remaining value, in connection-list order. -/
def connDeltasIn : List ℚ → ℚ → List ℚ
  | [], _ => []
  | v :: vs, remaining =>
    min remaining v :: connDeltasIn vs (remaining - min remaining v)

/-- `conn_delta` sequence of the exchange loop for direction 'out' (core.py
717-726): each of the `k` remaining iterations sends
`remaining / nConns` and decreases the remaining value. -/
def connDeltasOut (nConns : ℕ) : ℕ → ℚ → List ℚ
  | 0, _ => []
  | k + 1, remaining =>
    remaining / (nConns : ℚ) ::
      connDeltasOut nConns k (remaining - remaining / (nConns : ℚ))

lemma connDeltasIn_sum (values : List ℚ) :
    ∀ remaining : ℚ, 0 ≤ remaining → (∀ v ∈ values, 0 ≤ v) →
      (connDeltasIn values remaining).sum = min remaining values.sum := by
  induction values with
  | nil => intro r hr _; simp [connDeltasIn, min_eq_right hr]
  | cons v vs ih =>
    intro r hr hvals
    have hv : 0 ≤ v := hvals v (by simp)
    have hvs : ∀ w ∈ vs, 0 ≤ w := fun w hw => hvals w (by simp [hw])
    have hsum : 0 ≤ vs.sum := List.sum_nonneg hvs
    rw [connDeltasIn, List.sum_cons,
      ih (r - min r v) (by rw [sub_nonneg]; exact min_le_left r v) hvs]
    rw [List.sum_cons]
    rcases le_total r v with h | h
    · rw [min_eq_left h, sub_self, min_eq_left hsum,
        min_eq_left (by linarith)]
      ring
    · rw [min_eq_right h]
      rcases le_total (r - v) vs.sum with h2 | h2
      · rw [min_eq_left h2, min_eq_left (by linarith)]
        ring
      · rw [min_eq_right h2, min_eq_right (by linarith)]

lemma connDeltasIn_le (values : List ℚ) :
    ∀ remaining : ℚ, List.Forall₂ (· ≤ ·) (connDeltasIn values remaining) values := by
  induction values with
  | nil => intro r; simp [connDeltasIn]
  | cons v vs ih =>
    intro r
    rw [connDeltasIn]
    exact List.Forall₂.cons (min_le_right r v) (ih _)

lemma connDeltasOut_geometric (n : ℕ) (hn : 0 < n) :
    ∀ (k : ℕ) (a : ℚ), connDeltasOut n k a =
      (List.range k).map (fun i => a / n * (((n : ℚ) - 1) / n) ^ i) := by
  intro k
  induction k with
  | zero => intro a; simp [connDeltasOut]
  | succ k ih =>
    intro a
    have hn0 : ((n : ℚ)) ≠ 0 := Nat.cast_ne_zero.mpr hn.ne'
    rw [connDeltasOut]
    have hrem : a - a / (n : ℚ) = a * (((n : ℚ) - 1) / n) := by
      field_simp
      ring
    rw [hrem, ih]
    rw [List.range_succ_eq_map, List.map_cons, List.map_map]
    congr 1
    · simp
    · apply List.map_congr_left
      intro i _
      simp only [Function.comp]
      rw [pow_succ]
      field_simp
      ring

/-- C6 counterexample: an 'out' exchange of quantity 10 over two connected
storages sends 5 to the first and 2.5 to the second — not the claimed even
split of 5 each. -/
theorem C6_counterexample :
    connDeltasOut 2 2 10 = [5, 5 / 2] ∧ connDeltasOut 2 2 10 ≠ [10 / 2, 10 / 2] := by
  have h : connDeltasOut 2 2 10 = [5, 5 / 2] := by
    rw [connDeltasOut, connDeltasOut, connDeltasOut]
    norm_num
  refine ⟨h, ?_⟩
  rw [h]
  intro hcontra
  have := List.ext_get_iff.mp hcontra
  obtain ⟨-, hval⟩ := this
  have h1 := hval 1 (by norm_num) (by norm_num)
  norm_num at h1

/-- C6 (amended): for direction 'in' the storages are drained in
connection-list order, each delta bounded by the storage's snapshot balance,
until the quantity is exhausted (the deltas sum to
`min(actual, total available)`); for direction 'out' the quantity is NOT
split evenly: the i-th of n storages is sent `actual/n · ((n-1)/n)^i`
(the code divides the *remaining* value by n at each connection), which is
an even split only when n = 1. -/
theorem C6_amended (values : List ℚ) (actual : ℚ) (n : ℕ)
    (hvals : ∀ v ∈ values, 0 ≤ v) (hact : 0 ≤ actual) (hn : 0 < n) :
    (connDeltasIn values actual).sum = min actual values.sum ∧
      List.Forall₂ (· ≤ ·) (connDeltasIn values actual) values ∧
      connDeltasOut n n actual =
        (List.range n).map (fun i => actual / n * (((n : ℚ) - 1) / n) ^ i) :=
  ⟨connDeltasIn_sum values actual hact hvals, connDeltasIn_le values actual,
    connDeltasOut_geometric n hn n actual⟩

/-- C6 amended witness: draining [4, 10] with actual quantity 7 and a
single-storage 'out' distribution. -/
theorem C6_amended_witness :
    ((connDeltasIn [4, 10] 7).sum = min 7 ([4, 10] : List ℚ).sum ∧
      List.Forall₂ (· ≤ ·) (connDeltasIn [4, 10] 7) [4, 10] ∧
      connDeltasOut 1 1 7 =
        (List.range 1).map (fun i => 7 / (1 : ℚ) * (((1 : ℚ) - 1) / 1) ^ i)) ∧
    connDeltasIn [4, 10] 7 = [4, 3] := by
  refine ⟨C6_amended [4, 10] 7 1 ?_ (by norm_num) (by norm_num), ?_⟩
  · intro v hv
    rcases List.mem_cons.mp hv with h | h
    · rw [h]; norm_num
    · rcases List.mem_cons.mp h with h2 | h2
      · rw [h2]; norm_num
      · simp at h2
  · rw [connDeltasIn, connDeltasIn, connDeltasIn]
    norm_num

/-- Mean temperature constant of `_calculate_co2_scale` (`t_mean = 25`). -/
def tMean : ℚ := 25

/-- CO2 compensation point `tt = (163 - t_mean) / (5 - 0.1 * t_mean)`. -/
def co2CompensationPoint : ℚ := (163 - tMean) / (5 - (1 / 10) * tMean)

/-- Ratio of increased CO2 uptake (Vanuytrecht 5): the C3 response curve, or
a neutral 1 for other fixation types. -/
def co2UptakeRatio (carbonFixation : String) (co2ppm : ℚ) : ℚ :=
  if carbonFixation = "c3" then
    ((co2ppm - co2CompensationPoint) * (350 + 2 * co2CompensationPoint)) /
      ((co2ppm + 2 * co2CompensationPoint) * (350 - co2CompensationPoint))
  else 1

/-- Transpiration efficiency factor (Vanuytrecht 7):
`np.interp(co2_ppm, [350, 700], [1, 1.37])`. -/
def transpirationEfficiencyFactor (co2ppm : ℚ) : ℚ :=
  if co2ppm ≤ 350 then 1
  else if 700 ≤ co2ppm then 137 / 100
  else 1 + (co2ppm - 350) * ((137 / 100 - 1) / (700 - 350))

/-- `co2_ppm = max(350, min(1000, co2_ppm))`. -/
def clampCo2 (ppm : ℚ) : ℚ := max 350 (min 1000 ppm)

/-- Per-attribute CO2 adjustment of `_calculate_co2_scale` (core.py
866-883): `in_biomass` and `out_<agent_type>` are excluded, the
carbon-uptake fields are scaled by the uptake ratio, the water fields by the
inverse transpiration efficiency factor; other currencies are left out of
the adjusted set. -/
def svAdjust (agentType : String) (r t : ℚ) (direction currency : String)
    (stepValue : ℚ) : Option ℚ :=
  if (direction = "in" ∧ currency = "biomass") ∨
      (direction = "out" ∧ currency = agentType) then none
  else if currency ∈ ["co2", "fertilizer", "o2", "biomass", agentType] then
    some (stepValue * r)
  else if currency ∈ ["potable", "h2o"] then some (stepValue * (1 / t))
  else none

/-- The adjusted step values of one direction, built from the agent's
`(direction, currency, baseline step value)` flow attributes. -/
def svAdjusted (agentType : String) (r t : ℚ)
    (attrs : List (String × String × ℚ)) (direction : String) :
    List (String × ℚ) :=
  attrs.filterMap (fun a =>
    if a.1 = direction then
      (svAdjust agentType r t a.1 a.2.1 a.2.2).map (fun v => (a.2.1, v))
    else none)

/-- Error redistribution of `_calculate_co2_scale` (core.py 885-896): when
the adjusted inputs exceed the adjusted outputs by more than `eps`, the
error is removed proportionally from the outputs; otherwise the outputs are
returned unchanged. -/
def co2Rebalance (svIn svOut : List (String × ℚ)) (eps : ℚ) : List (String × ℚ) :=
  let netInputs := (svIn.map Prod.snd).sum
  let netOutputs := (svOut.map Prod.snd).sum
  let svError := netInputs - netOutputs
  if svError > eps then
    svOut.map (fun cv => (cv.1, cv.2 + cv.2 / netOutputs * svError))
  else svOut

/-- The CO2-scale pipeline of `_calculate_co2_scale` up to the rebalanced
adjusted step values: clamp the ambient ppm, compute the uptake ratio and
transpiration factor, adjust the flows, and redistribute the error over the
outputs. Returns (adjusted inputs, rebalanced adjusted outputs). -/
def calculateCo2ScaleAdjusted (agentType carbonFixation : String)
    (co2RatioIn : ℚ) (attrs : List (String × String × ℚ)) (eps : ℚ) :
    List (String × ℚ) × List (String × ℚ) :=
  let ppm := clampCo2 (co2RatioIn * 1000000)
  let r := co2UptakeRatio carbonFixation ppm
  let t := transpirationEfficiencyFactor ppm
  let svIn := svAdjusted agentType r t attrs "in"
  let svOut := svAdjusted agentType r t attrs "out"
  (svIn, co2Rebalance svIn svOut eps)

/-- C7 counterexample: a C3 plant at 1000 ppm with adjusted input co2 = 1·r
and adjusted output o2 = 2·r has net outputs exceeding net inputs, so no
rebalancing occurs and the sums differ by more than 1 — far beyond any
floating-point tolerance, contradicting the claimed conservation. -/
theorem C7_counterexample :
    1 < (((calculateCo2ScaleAdjusted "wheat" "c3" (1 / 1000)
          [("in", "co2", 1), ("out", "o2", 2)] (1 / 1000000000000)).2.map
        Prod.snd).sum -
      (((calculateCo2ScaleAdjusted "wheat" "c3" (1 / 1000)
          [("in", "co2", 1), ("out", "o2", 2)] (1 / 1000000000000)).1.map
        Prod.snd).sum)) := by
  simp [calculateCo2ScaleAdjusted, svAdjusted, svAdjust, co2Rebalance, clampCo2,
    co2UptakeRatio, transpirationEfficiencyFactor, co2CompensationPoint, tMean]
  norm_num

/-- C7 (amended): the proportional redistribution conserves mass only in the
direction it handles: whenever the adjusted inputs exceed the adjusted
outputs by more than `eps` (and the adjusted outputs are nonzero), the
rebalanced outputs sum exactly to the adjusted inputs; when the adjusted
outputs exceed the adjusted inputs, the outputs are left unchanged and the
imbalance persists. -/
theorem C7_amended (svIn svOut : List (String × ℚ)) (eps : ℚ)
    (herr : eps < (svIn.map Prod.snd).sum - (svOut.map Prod.snd).sum)
    (hout : (svOut.map Prod.snd).sum ≠ 0) :
    ((co2Rebalance svIn svOut eps).map Prod.snd).sum = (svIn.map Prod.snd).sum := by
  unfold co2Rebalance
  rw [if_pos herr]
  have hmap : (svOut.map (fun cv => (cv.1, cv.2 + cv.2 /
        ((svOut.map Prod.snd).sum) * ((svIn.map Prod.snd).sum -
          (svOut.map Prod.snd).sum)))).map Prod.snd =
      svOut.map (fun cv => Prod.snd cv * (1 + ((svIn.map Prod.snd).sum -
        (svOut.map Prod.snd).sum) / ((svOut.map Prod.snd).sum))) := by
    rw [List.map_map]
    apply List.map_congr_left
    intro cv _
    simp only [Function.comp]
    ring
  rw [hmap, List.sum_map_mul_right]
  field_simp

/-- C7 amended witness: inputs summing to 2, outputs summing to 1, eps =
1e-12 — the redistributed outputs sum to the inputs. -/
theorem C7_amended_witness :
    ((co2Rebalance [("co2", 2)] [("o2", 1)] (1 / 1000000000000)).map
        Prod.snd).sum = (([("co2", (2 : ℚ))] : List (String × ℚ)).map Prod.snd).sum :=
  C7_amended [("co2", 2)] [("o2", 1)] (1 / 1000000000000)
    (by norm_num) (by norm_num)

/-- One active event instance: a multiplier magnitude and an optional
remaining duration. -/
structure EventInstance where
  magnitude : ℚ
  duration : Option ℚ
  deriving DecidableEq, Repr

/-- Event configuration from `attr_details`: `scope` ('group' or
'individual'), per-step duration delta and probability, and the configured
magnitude/duration for new instances. -/
structure EventDetails where
  scope : String
  durationDeltaPerStep : ℚ := 0
  probabilityPerStep : ℚ := 0
  magnitudeValue : ℚ := 1
  durationValue : Option ℚ := none
  deriving Repr

/-- Body of the spawn loop of `_process_event` (core.py 559-591): a uniform
draw above the per-step probability spawns nothing; a 'termination' event
kills the agent; a 'multiplier' event appends an instance whose magnitude
(and duration, if configured) are scaled by the variation draws. The random
draws are supplied as oracles indexed by slot (a variation oracle returning
1 models an unconfigured distribution). -/
def spawnStep (det : EventDetails) (attrValue : String)
    (rolls magVar durVar : ℕ → ℚ) (acc : List EventInstance × Bool) (i : ℕ) :
    List EventInstance × Bool :=
  if det.probabilityPerStep < rolls i then acc
  else if attrValue = "termination" then (acc.1, true)
  else
    (acc.1 ++
      [{ magnitude := det.magnitudeValue * magVar i,
         duration := det.durationValue.map (fun d => d * durVar i) }], acc.2)

/-- The spawn loop of `_process_event`, iterated over the empty slots. -/
def spawnLoop (det : EventDetails) (attrValue : String)
    (rolls magVar durVar : ℕ → ℚ) (idxs : List ℕ) :
    List EventInstance × Bool :=
  idxs.foldl (spawnStep det attrValue rolls magVar durVar) ([], false)

/-- Duration update and expiry of `_process_event` (core.py 546-552):
decrement every instance's remaining duration by the per-step delta and drop
instances whose duration reached 0. -/
def expireInstances (det : EventDetails) (instances0 : List EventInstance) :
    List EventInstance :=
  (instances0.map (fun e =>
      { e with duration := e.duration.map (fun d => d - det.durationDeltaPerStep) })).filter
    (fun e =>
      match e.duration with
      | some d => decide (0 < d)
      | none => true)

/-- Cap of the surviving instance list at the population size (core.py
553-554). -/
def cappedInstances (amount : ℕ) (det : EventDetails)
    (instances0 : List EventInstance) : List EventInstance :=
  if amount < (expireInstances det instances0).length then
    (expireInstances det instances0).take amount
  else expireInstances det instances0

/-- `max_instances` (core.py 557): one slot for 'group' scope, `amount`
slots otherwise. -/
def maxSlots (amount : ℕ) (det : EventDetails) : ℕ :=
  if det.scope = "group" then 1 else amount

/-- The newly spawned instances of this step (one dice roll per empty
slot). -/
def newInstances (amount : ℕ) (det : EventDetails) (attrValue : String)
    (instances0 : List EventInstance) (rolls magVar durVar : ℕ → ℚ) :
    List EventInstance × Bool :=
  spawnLoop det attrValue rolls magVar durVar
    (List.range (maxSlots amount det - (cappedInstances amount det instances0).length))

/-- `GeneralAgent._process_event` (core.py 543-601): expire durations, cap
the list at `amount`, spawn new instances into the empty slots, then either
remove the event type's entries entirely (`none`, when no instances remain)
or return the instances with the recomputed aggregate multiplier
`(sum of magnitudes + number of empty slots) / total slots`. The `Bool`
reports whether a 'termination' spawn killed the agent. -/
def processEvent (amount : ℕ) (det : EventDetails) (attrValue : String)
    (instances0 : List EventInstance) (rolls magVar durVar : ℕ → ℚ) :
    Option (List EventInstance × ℚ) × Bool :=
  let instances := cappedInstances amount det instances0 ++
    (newInstances amount det attrValue instances0 rolls magVar durVar).1
  if instances.length = 0 then
    (none, (newInstances amount det attrValue instances0 rolls magVar durVar).2)
  else
    (some (instances,
      ((instances.map EventInstance.magnitude).sum +
        ((maxSlots amount det : ℚ) - (instances.length : ℚ))) /
        (maxSlots amount det : ℚ)),
      (newInstances amount det attrValue instances0 rolls magVar durVar).2)

lemma spawnStep_length_le (det : EventDetails) (attrValue : String)
    (rolls magVar durVar : ℕ → ℚ) (acc : List EventInstance × Bool) (i : ℕ) :
    (spawnStep det attrValue rolls magVar durVar acc i).1.length ≤
      acc.1.length + 1 := by
  unfold spawnStep
  by_cases hroll : det.probabilityPerStep < rolls i
  · rw [if_pos hroll]; omega
  · rw [if_neg hroll]
    by_cases hterm : attrValue = "termination"
    · rw [if_pos hterm]; simp
    · rw [if_neg hterm]; simp

lemma spawnLoop_foldl_length (det : EventDetails) (attrValue : String)
    (rolls magVar durVar : ℕ → ℚ) :
    ∀ (idxs : List ℕ) (acc : List EventInstance × Bool),
      (idxs.foldl (spawnStep det attrValue rolls magVar durVar) acc).1.length ≤
        acc.1.length + idxs.length := by
  intro idxs
  induction idxs with
  | nil => intro acc; simp
  | cons i idxs ih =>
    intro acc
    rw [List.foldl_cons]
    calc (idxs.foldl (spawnStep det attrValue rolls magVar durVar)
          (spawnStep det attrValue rolls magVar durVar acc i)).1.length ≤
        (spawnStep det attrValue rolls magVar durVar acc i).1.length + idxs.length :=
          ih _
      _ ≤ (acc.1.length + 1) + idxs.length := by
          have := spawnStep_length_le det attrValue rolls magVar durVar acc i
          omega
      _ = acc.1.length + (i :: idxs).length := by
          rw [List.length_cons]
          omega

lemma spawnLoop_length_le (det : EventDetails) (attrValue : String)
    (rolls magVar durVar : ℕ → ℚ) (idxs : List ℕ) :
    (spawnLoop det attrValue rolls magVar durVar idxs).1.length ≤ idxs.length := by
  have := spawnLoop_foldl_length det attrValue rolls magVar durVar idxs ([], false)
  simpa [spawnLoop] using this

lemma cappedInstances_length (amount : ℕ) (det : EventDetails)
    (instances0 : List EventInstance)
    (hprior : det.scope = "group" → instances0.length ≤ 1) :
    (cappedInstances amount det instances0).length ≤ maxSlots amount det := by
  have hexp : (expireInstances det instances0).length ≤ instances0.length := by
    unfold expireInstances
    refine le_trans (List.length_filter_le _ _) ?_
    rw [List.length_map]
  unfold cappedInstances maxSlots
  by_cases hg : det.scope = "group"
  · rw [if_pos hg]
    have h1 := hprior hg
    by_cases h : amount < (expireInstances det instances0).length
    · rw [if_pos h, List.length_take]
      omega
    · rw [if_neg h]
      omega
  · rw [if_neg hg]
    by_cases h : amount < (expireInstances det instances0).length
    · rw [if_pos h, List.length_take]
      omega
    · rw [if_neg h]
      omega

/-- C8: after `_process_event` the number of active instances never exceeds
the current `amount` for an 'individual'-scope event — unconditionally, even
when deprivation reduced `amount` below the prior instance count, because
the cap at `instances[:self.amount]` is applied against the current amount —
and never exceeds 1 for a 'group'-scope event, given that the prior list
held at most one instance (which this very bound re-establishes after every
step, so it is an inductive invariant from the empty initial events map).
When at least one instance remains, the returned multiplier is
`(sum of active magnitudes + number of still-empty slots) / total slots`;
when no instance remains, the event type's entries are removed from both
maps (modelled by the `none` result). -/
theorem C8_event_bounds (amount : ℕ) (det : EventDetails) (attrValue : String)
    (instances0 : List EventInstance) (rolls magVar durVar : ℕ → ℚ)
    (hprior : det.scope = "group" → instances0.length ≤ 1) :
    ∀ l m, (processEvent amount det attrValue instances0 rolls magVar durVar).1 =
        some (l, m) →
      l.length ≤ maxSlots amount det ∧ 0 < l.length ∧
      m = ((l.map EventInstance.magnitude).sum +
        ((maxSlots amount det : ℚ) - (l.length : ℚ))) / (maxSlots amount det : ℚ) := by
  intro l m hsome
  have hclen := cappedInstances_length amount det instances0 hprior
  have hslen : (newInstances amount det attrValue instances0 rolls magVar
      durVar).1.length ≤ maxSlots amount det -
        (cappedInstances amount det instances0).length := by
    unfold newInstances
    calc _ ≤ (List.range (maxSlots amount det -
        (cappedInstances amount det instances0).length)).length :=
          spawnLoop_length_le _ _ _ _ _ _
      _ = _ := List.length_range _
  have htotal : (cappedInstances amount det instances0 ++
      (newInstances amount det attrValue instances0 rolls magVar durVar).1).length ≤
        maxSlots amount det := by
    rw [List.length_append]
    omega
  unfold processEvent at hsome
  by_cases hzero : (cappedInstances amount det instances0 ++
      (newInstances amount det attrValue instances0 rolls magVar durVar).1).length = 0
  · rw [if_pos hzero] at hsome
    cases hsome
  · rw [if_neg hzero] at hsome
    have hpair := Option.some.inj hsome
    rw [Prod.mk.injEq] at hpair
    obtain ⟨hl, hm⟩ := hpair
    subst hl
    subst hm
    exact ⟨htotal, by omega, rfl⟩

/-- C8 witness: a group-scope event with one surviving instance of magnitude
2 keeps a single instance with multiplier `(2 + 0) / 1 = 2`; and an
individual-scope event whose two prior instances exceed the current amount 1
(the state left behind when deprivation reduced `amount` after the previous
step's event processing) is capped at one instance, with no hypothesis on
the prior list. -/
theorem C8_event_bounds_witness :
    (([⟨2, some 4⟩] : List EventInstance).length ≤ maxSlots 3 ⟨"group", 1, 0, 1, none⟩ ∧
      0 < ([⟨2, some 4⟩] : List EventInstance).length ∧
      (2 : ℚ) = ((([⟨(2 : ℚ), some (4 : ℚ)⟩] :
          List EventInstance).map EventInstance.magnitude).sum +
        ((maxSlots 3 ⟨"group", 1, 0, 1, none⟩ : ℚ) -
          (([⟨2, some 4⟩] : List EventInstance).length : ℚ))) /
        (maxSlots 3 ⟨"group", 1, 0, 1, none⟩ : ℚ)) ∧
    (processEvent 3 ⟨"group", 1, 0, 1, none⟩ "multiplier" [⟨2, some 5⟩]
      (fun _ => 1) (fun _ => 1) (fun _ => 1)).1 = some ([⟨2, some 4⟩], 2) ∧
    (([⟨2, some 4⟩] : List EventInstance).length ≤
        maxSlots 1 ⟨"individual", 1, 0, 1, none⟩ ∧
      (processEvent 1 ⟨"individual", 1, 0, 1, none⟩ "multiplier"
        [⟨2, some 5⟩, ⟨3, some 5⟩] (fun _ => 1) (fun _ => 1) (fun _ => 1)).1 =
        some ([⟨2, some 4⟩], 2)) := by
  have heval : (processEvent 3 ⟨"group", 1, 0, 1, none⟩ "multiplier" [⟨2, some 5⟩]
      (fun _ => 1) (fun _ => 1) (fun _ => 1)).1 = some ([⟨2, some 4⟩], 2) := by
    simp [processEvent, cappedInstances, expireInstances, newInstances, maxSlots,
      spawnLoop, spawnStep]
    norm_num
  have heval2 : (processEvent 1 ⟨"individual", 1, 0, 1, none⟩ "multiplier"
      [⟨2, some 5⟩, ⟨3, some 5⟩] (fun _ => 1) (fun _ => 1) (fun _ => 1)).1 =
      some ([⟨2, some 4⟩], 2) := by
    simp [processEvent, cappedInstances, expireInstances, newInstances, maxSlots,
      spawnLoop, spawnStep]
    norm_num
  refine ⟨?_, heval, ?_, heval2⟩
  · exact C8_event_bounds 3 ⟨"group", 1, 0, 1, none⟩ "multiplier" [⟨2, some 5⟩]
      (fun _ => 1) (fun _ => 1) (fun _ => 1) (fun _ => by norm_num)
      [⟨2, some 4⟩] 2 heval
  · exact (C8_event_bounds 1 ⟨"individual", 1, 0, 1, none⟩ "multiplier"
      [⟨2, some 5⟩, ⟨3, some 5⟩] (fun _ => 1) (fun _ => 1) (fun _ => 1)
      (fun h => by simp at h) [⟨2, some 4⟩] 2 heval2).1

/-- Threshold comparison type: `char_threshold_upper_<c>` uses `>`,
`char_threshold_lower_<c>` uses `<`. -/
inductive ThresholdType
  | upper
  | lower
  deriving DecidableEq, Repr

/-- One `char_threshold_<type>_<currency>` attribute. -/
structure ThresholdAttr where
  thresholdType : ThresholdType
  currency : String
  value : ℚ
  deriving Repr

/-- One `<in|out>_<currency>` flow attribute together with the
`attr_details` fields read by `GeneralAgent.step` and the connected storage
agent types (in connection-list order). -/
structure FlowDetails where
  currency : String
  attrValue : ℚ
  requires : List String := []
  isRequired : Option String := none
  depriveValue : ℚ := 0
  deltaPerStep : ℚ := 0
  criteria : CriteriaSpec := ⟨none, CrLimit.gt, 0, 0⟩
  stepValues : List ℚ := []
  connections : List String := []

/-- Mutable `GeneralAgent` state read and written by `step`, for an agent
with no custom function, no event processing (`process_events` is false when
the model's global entropy is 0 or when loading from a model) and no step
variation (then `step_variable` stays 1). `selfAttrs` models the
`cr_name in self` attribute lookup for criteria sources. -/
structure FlowAgent where
  age : ℚ
  amount : ℤ
  stepVariable : ℚ := 1
  eventMultipliers : List ℚ := []
  deprive : String → ℚ
  buffer : String → ℚ
  selfAttrs : String → Option ℚ := fun _ => none
  thresholds : List ThresholdAttr := []
  flowsIn : List FlowDetails := []
  flowsOut : List FlowDetails := []
  missingDesired : Bool := false

/-- Model-level state read by `GeneralAgent.step`: tick length, day length,
the currency dictionary, and the per-storage ratio cache
`model.storage_ratios` (an association list `storage id → ratio name →
value`). -/
structure StepEnv where
  hoursPerStep : ℚ
  dayLengthHours : ℕ
  currencyDict : CurrencyDict
  storageRatios : List (String × List (String × ℚ))

/-- `model.storage_ratios[sid][name]`; `none` models the `KeyError`. -/
def ratioLookup (ratios : List (String × List (String × ℚ))) (sid name : String) :
    Option ℚ :=
  match ratios.find? (fun p => decide (p.1 = sid)) with
  | none => none
  | some p => (p.2.find? (fun q => decide (q.1 = name))).map Prod.snd

/-- `GeneralAgent._get_storage_ratio` (core.py 487-504): a criteria name
ending in `_in`/`_out` reads the ratio of the first connected storage for
that currency and direction; otherwise the ratio is summed over all storages
that carry the name. -/
def getStorageRatio (env : StepEnv) (ag : FlowAgent) (crName : String) : Option ℚ :=
  let elements := crName.splitOn "_"
  let direction := elements.getLastD ""
  if direction = "in" ∨ direction = "out" then
    let currency := elements.headD ""
    let crActual := String.intercalate "_" (elements.take 2)
    let flows := if direction = "in" then ag.flowsIn else ag.flowsOut
    match flows.find? (fun f => decide (f.currency = currency)) with
    | none => none
    | some f =>
      match f.connections.head? with
      | none => none
      | some sid => ratioLookup env.storageRatios sid crActual
  else
    some ((env.storageRatios.map (fun p =>
      ((p.2.find? (fun q => decide (q.1 = crName))).map Prod.snd).getD 0)).sum)

/-- The storages examined by one threshold attribute: the connected storages
of the matching 'in' flow, then of the matching 'out' flow (core.py
621-623). -/
def thresholdStorages (ag : FlowAgent) (currency : String) : List String :=
  (((ag.flowsIn.find? (fun f => decide (f.currency = currency))).map
      FlowDetails.connections).getD []) ++
    (((ag.flowsOut.find? (fun f => decide (f.currency = currency))).map
      FlowDetails.connections).getD [])

/-- Threshold comparison over the connected storages, in order, stopping at
the first violation (core.py 623-630); `none` models a `KeyError` on the
ratio cache. -/
def checkThreshold (env : StepEnv) (th : ThresholdAttr) : List String → Option Bool
  | [] => some false
  | sid :: rest =>
    match ratioLookup env.storageRatios sid (th.currency ++ "_ratio") with
    | none => none
    | some ratio =>
      let hit := match th.thresholdType with
        | ThresholdType.upper => decide (th.value < ratio)
        | ThresholdType.lower => decide (ratio < th.value)
      if hit then some true else checkThreshold env th rest

/-- Sub-step 1 of `GeneralAgent.step`: evaluate every threshold attribute in
declaration order; `some true` = the agent is killed. -/
def thresholdCheck (env : StepEnv) (ag : FlowAgent) : List ThresholdAttr → Option Bool
  | [] => some false
  | th :: rest =>
    match checkThreshold env th (thresholdStorages ag th.currency) with
    | none => none
    | some true => some true
    | some false => thresholdCheck env ag rest

/-- State threaded through the flow loop of `GeneralAgent.step`: the agent,
the connected storages (by agent type), the `influx` set and the
`step_exchange_buffer` entries `(direction, currency, storage, |amount|)`. -/
structure FlowState where
  agent : FlowAgent
  storages : String → StorageAgent
  influx : List String
  exchangeBuffer : List (String × String × String × ℚ)

/-- How the step ended: completed, or aborted by the threshold kill, the
mandatory-deficit return, or the deprivation kill. -/
inductive StepOutcome
  | completed
  | killedThreshold
  | abortedMandatory
  | killedDeprive
  deriving DecidableEq, Repr

/-- Sub-step 7 of `GeneralAgent.step`: the `(storage, available value)`
snapshot list over the connected storages (`sum(storage.view(currency)
.values())` per storage); `none` models a `KeyError` in `view`. -/
def availableConns (cd : CurrencyDict) (storages : String → StorageAgent)
    (conns : List String) (currency : String) : Option (List (String × ℚ)) :=
  conns.mapM (fun sid =>
    ((storages sid).viewCurrencies cd currency).map (fun cs =>
      (sid, (cs.map (storages sid).balance).sum)))

/-- Sub-step 9 of `GeneralAgent.step` (core.py 716-737): walk the connected
storages with the remaining value; 'in' drains `min(remaining, snapshot)`
per storage, 'out' sends `remaining / n`; each exchange goes through
`StorageAgent.increment`; when `actual_value ≥ eps` the currency is added to
`influx` (direction 'in') and the flows are logged. -/
def processConns (env : StepEnv) (eps : ℚ) (dir currency : String) (nConns : ℕ)
    (actualValue : ℚ) :
    List (String × ℚ) → ℚ → FlowState → Option FlowState
  | [], _, st => some st
  | (sid, value) :: rest, remaining, st =>
    let connDelta := if dir = "in" then min remaining value
      else remaining / (nConns : ℚ)
    let incAmount := if dir = "in" then -connDelta else connDelta
    match (st.storages sid).increment env.currencyDict currency incAmount with
    | none => none
    | some r =>
      let st1 : FlowState := { st with storages := Function.update st.storages sid r.1 }
      let st2 : FlowState :=
        if actualValue < eps then st1
        else
          { st1 with
            influx := if dir = "in" then currency :: st1.influx else st1.influx,
            exchangeBuffer := st1.exchangeBuffer ++
              r.2.map (fun cf => (dir, cf.1, sid, |cf.2|)) }
      processConns env eps dir currency nConns actualValue rest
        (remaining - connDelta) st2

/-- Sub-step 6 of `GeneralAgent.step`: resolve the criteria source (an agent
attribute, else a storage ratio), evaluate `_get_step_value` (updating the
buffer), and multiply by the step variable and the product of the event
multipliers. Returns the agent with the updated buffer and the step
magnitude. -/
def flowStepValue (env : StepEnv) (dir : String) (st : FlowState) (f : FlowDetails) :
    Option (FlowAgent × ℚ) :=
  let attr := dir ++ "_" ++ f.currency
  let stepNum := (⌊st.agent.age⌋).toNat
  let sourceOpt : Option ℚ :=
    match f.criteria.name with
    | none => some 0
    | some nm =>
      match st.agent.selfAttrs nm with
      | some v => some v
      | none => getStorageRatio env st.agent nm
  match sourceOpt with
  | none => none
  | some source =>
    (getStepValue f.criteria source (st.agent.buffer attr) f.stepValues stepNum
      env.dayLengthHours).map (fun sv =>
        ({ st.agent with buffer := Function.update st.agent.buffer attr sv.2 },
          sv.1 * st.agent.stepVariable * st.agent.eventMultipliers.prod))

/-- Sub-steps 7-9 of `GeneralAgent.step` for one flow attribute: snapshot
the available values, handle the deficit cases (mandatory abort, desired
stall, deprivation) and perform the exchange. `ag1` is the agent after the
buffer update of `_get_step_value`. -/
def flowExchange (env : StepEnv) (eps : ℚ) (dir : String) (f : FlowDetails)
    (st : FlowState) (ag1 : FlowAgent) (stepMag : ℚ) :
    Option (FlowState ⊕ (FlowState × StepOutcome)) :=
  let targetValue := stepMag * (ag1.amount : ℚ)
  let attr := dir ++ "_" ++ f.currency
  match availableConns env.currencyDict st.storages f.connections f.currency with
  | none => none
  | some conns =>
    let availableValue := (conns.map Prod.snd).sum
    let hasDeficit := dir = "in" ∧ availableValue < targetValue
    if hasDeficit ∧ f.isRequired = some "mandatory" then
      some (Sum.inr ({ st with agent := ag1 }, StepOutcome.abortedMandatory))
    else
      let ag2 := if hasDeficit ∧ f.isRequired = some "desired" then
        { ag1 with missingDesired := true } else ag1
      if hasDeficit ∧ 0 < f.depriveValue then
        let r := depriveUpdate ag2.amount (ag2.deprive attr) stepMag availableValue
          f.deltaPerStep
        let ag3 := { ag2 with
          deprive := Function.update ag2.deprive attr r.deprive,
          amount := r.amount }
        if r.killed then
          some (Sum.inr ({ st with agent := ag3 }, StepOutcome.killedDeprive))
        else
          (processConns env eps dir f.currency conns.length r.actualValue conns
            r.actualValue { st with agent := ag3 }).map Sum.inl
      else
        let ag3 := if 0 < f.depriveValue then
          { ag2 with
            deprive := Function.update ag2.deprive attr
                (depriveReplenish ag2.amount (ag2.deprive attr) f.depriveValue) }
          else ag2
        (processConns env eps dir f.currency conns.length targetValue conns
          targetValue { st with agent := ag3 }).map Sum.inl

/-- One iteration of the flow loop (sub-step 5): skip zero-rate attributes
and attributes whose `requires` list names a currency not yet consumed this
step, otherwise compute the step value and exchange. -/
def processFlow (env : StepEnv) (eps : ℚ) (dir : String) (st : FlowState)
    (f : FlowDetails) : Option (FlowState ⊕ (FlowState × StepOutcome)) :=
  if f.attrValue = 0 then some (Sum.inl st)
  else if f.requires ≠ [] ∧ f.requires.any (fun rq => ! st.influx.contains rq) then
    some (Sum.inl st)
  else
    match flowStepValue env dir st f with
    | none => none
    | some p => flowExchange env eps dir f st p.1 p.2

/-- The flow loop over one direction's attributes, stopping at the first
abort. -/
def processFlows (env : StepEnv) (eps : ℚ) (dir : String) :
    List FlowDetails → FlowState → Option (FlowState ⊕ (FlowState × StepOutcome))
  | [], st => some (Sum.inl st)
  | f :: fs, st =>
    match processFlow env eps dir st f with
    | none => none
    | some (Sum.inr r) => some (Sum.inr r)
    | some (Sum.inl st1) => processFlows env eps dir fs st1

/-- Result of one `GeneralAgent.step`. -/
structure StepResult where
  agent : FlowAgent
  storages : String → StorageAgent
  exchangeBuffer : List (String × String × String × ℚ)
  outcome : StepOutcome

/-- `GeneralAgent.step` (core.py 604-737) for an agent without custom
functions, event processing or step variation: reset the exchange buffer and
`missing_desired`, advance `age` by the model's hours per step, run the
threshold kill check, then process the 'in' flows followed by the 'out'
flows; aborts keep the state mutated so far. -/
def GeneralAgent.step (env : StepEnv) (eps : ℚ) (ag0 : FlowAgent)
    (storages0 : String → StorageAgent) : Option StepResult :=
  let ag : FlowAgent :=
    { ag0 with age := ag0.age + env.hoursPerStep, missingDesired := false }
  match thresholdCheck env ag ag.thresholds with
  | none => none
  | some true =>
    some { agent := ag, storages := storages0, exchangeBuffer := [],
           outcome := StepOutcome.killedThreshold }
  | some false =>
    match processFlows env eps "in" ag.flowsIn
        { agent := ag, storages := storages0, influx := [], exchangeBuffer := [] } with
    | none => none
    | some (Sum.inr r) =>
      some { agent := r.1.agent, storages := r.1.storages,
             exchangeBuffer := r.1.exchangeBuffer, outcome := r.2 }
    | some (Sum.inl st1) =>
      match processFlows env eps "out" ag.flowsOut st1 with
      | none => none
      | some (Sum.inr r) =>
        some { agent := r.1.agent, storages := r.1.storages,
               exchangeBuffer := r.1.exchangeBuffer, outcome := r.2 }
      | some (Sum.inl st2) =>
        some { agent := st2.agent, storages := st2.storages,
               exchangeBuffer := st2.exchangeBuffer,
               outcome := StepOutcome.completed }

lemma processConns_agent (env : StepEnv) (eps : ℚ) (dir currency : String)
    (nConns : ℕ) (actualValue : ℚ) :
    ∀ (conns : List (String × ℚ)) (remaining : ℚ) (st st' : FlowState),
      processConns env eps dir currency nConns actualValue conns remaining st =
        some st' → st'.agent = st.agent := by
  intro conns
  induction conns with
  | nil =>
    intro remaining st st' h
    simp only [processConns] at h
    obtain rfl := Option.some.inj h
    rfl
  | cons p rest ih =>
    obtain ⟨sid, value⟩ := p
    intro remaining st st' h
    simp only [processConns] at h
    split at h
    · cases h
    · have := ih _ _ _ h
      rw [this]
      split
      · rfl
      · rfl

lemma flowStepValue_age (env : StepEnv) (dir : String) (st : FlowState)
    (f : FlowDetails) (p : FlowAgent × ℚ)
    (h : flowStepValue env dir st f = some p) : p.1.age = st.agent.age := by
  simp only [flowStepValue] at h
  split at h
  · cases h
  · rw [Option.map_eq_some'] at h
    obtain ⟨sv, hsv, hres⟩ := h
    subst hres
    rfl

lemma flowExchange_age (env : StepEnv) (eps : ℚ) (dir : String) (f : FlowDetails)
    (st : FlowState) (ag1 : FlowAgent) (stepMag : ℚ) :
    ∀ res, flowExchange env eps dir f st ag1 stepMag = some res →
      (match res with
        | Sum.inl st1 => st1.agent.age
        | Sum.inr (st1, _) => st1.agent.age) = ag1.age := by
  intro res h
  simp only [flowExchange] at h
  split at h
  · cases h
  · rename_i conns heq
    repeat' split at h
    all_goals first
      | exact Option.noConfusion h
      | (cases h <;> rfl)
      | (rw [Option.map_eq_some'] at h
         obtain ⟨st1, hpc, hres⟩ := h
         subst hres
         show st1.agent.age = ag1.age
         rw [processConns_agent env eps dir f.currency conns.length _ conns _ _ _ hpc])

lemma processFlow_age (env : StepEnv) (eps : ℚ) (dir : String) (st : FlowState)
    (f : FlowDetails) :
    ∀ res, processFlow env eps dir st f = some res →
      (match res with
        | Sum.inl st1 => st1.agent.age
        | Sum.inr (st1, _) => st1.agent.age) = st.agent.age := by
  intro res h
  simp only [processFlow] at h
  split at h
  · obtain rfl := Option.some.inj h
    rfl
  · split at h
    · obtain rfl := Option.some.inj h
      rfl
    · split at h
      · cases h
      · rename_i p heq
        rw [flowExchange_age env eps dir f st p.1 p.2 res h]
        exact flowStepValue_age env dir st f p heq

lemma processFlows_age (env : StepEnv) (eps : ℚ) (dir : String) :
    ∀ (fs : List FlowDetails) (st : FlowState) (res : FlowState ⊕
        (FlowState × StepOutcome)),
      processFlows env eps dir fs st = some res →
      (match res with
        | Sum.inl st1 => st1.agent.age
        | Sum.inr (st1, _) => st1.agent.age) = st.agent.age := by
  intro fs
  induction fs with
  | nil =>
    intro st res h
    simp only [processFlows] at h
    obtain rfl := Option.some.inj h
    rfl
  | cons f fs ih =>
    intro st res h
    simp only [processFlows] at h
    split at h
    · cases h
    · rename_i r0 heq
      obtain rfl := Option.some.inj h
      exact processFlow_age env eps dir st f _ heq
    · rename_i st1 heq
      rw [ih _ _ h]
      exact processFlow_age env eps dir st f (Sum.inl st1) heq

/-- C9 (amended): `GeneralAgent.step` advances `age` by exactly the model's
hours-per-step on EVERY step, including steps aborted by the threshold kill
or by the mandatory-deficit return — the `age` increment happens before
either abort check in the code, so aborted steps still age the agent. -/
theorem C9_amended (env : StepEnv) (eps : ℚ) (ag0 : FlowAgent)
    (storages0 : String → StorageAgent) (r : StepResult)
    (h : GeneralAgent.step env eps ag0 storages0 = some r) :
    r.agent.age = ag0.age + env.hoursPerStep := by
  simp only [GeneralAgent.step] at h
  split at h
  · cases h
  · obtain rfl := Option.some.inj h
    rfl
  · split at h
    · cases h
    · rename_i r0 heq
      obtain rfl := Option.some.inj h
      exact processFlows_age env eps "in" ag0.flowsIn _ (Sum.inr r0) heq
    · rename_i st1 heq1
      have h1 : st1.agent.age = ag0.age + env.hoursPerStep :=
        processFlows_age env eps "in" ag0.flowsIn _ (Sum.inl st1) heq1
      split at h
      · cases h
      · rename_i r0 heq
        obtain rfl := Option.some.inj h
        have h2 : r0.1.agent.age = st1.agent.age :=
          processFlows_age env eps "out" ag0.flowsOut st1 (Sum.inr r0) heq
        exact h2.trans h1
      · rename_i st2 heq
        obtain rfl := Option.some.inj h
        have h2 : st2.agent.age = st1.agent.age :=
          processFlows_age env eps "out" ag0.flowsOut st1 (Sum.inl st2) heq
        exact h2.trans h1

/-- Model environment for the concrete step examples: 1-hour steps, 24-hour
days, the water currencies, and a cached potable ratio of 0.8 for the
connected storage. -/
def envC9 : StepEnv :=
  { hoursPerStep := 1
    dayLengthHours := 24
    currencyDict := waterDict
    storageRatios := [("water_storage", [("potable_ratio", 4 / 5)])] }

/-- A flow agent at age 5 with an upper potable threshold of 0.5 that the
cached ratio 0.8 violates, killing it in sub-step 1. -/
def agentC9 : FlowAgent :=
  { age := 5
    amount := 1
    deprive := fun _ => 0
    buffer := fun _ => 0
    thresholds := [⟨ThresholdType.upper, "potable", 1 / 2⟩]
    flowsIn := [{ currency := "potable", attrValue := 1, stepValues := [1],
                  connections := ["water_storage"] }] }

/-- Connected storages for the step examples. -/
def storagesC9 : String → StorageAgent := fun _ => tank1

/-- A flow agent with no thresholds and no flows, whose step completes. -/
def agentC9quiet : FlowAgent :=
  { age := 2
    amount := 1
    deprive := fun _ => 0
    buffer := fun _ => 0 }

/-- C9 counterexample: the threshold kill aborts the step of `agentC9`, yet
its age still advances from 5 to 6 — the claim says age should not advance
on the threshold-kill abort. -/
theorem C9_counterexample :
    (GeneralAgent.step envC9 (1 / 1000000000000) agentC9 storagesC9).map
        (fun r => (r.outcome, r.agent.age)) =
      some (StepOutcome.killedThreshold, 6) ∧ (6 : ℚ) ≠ agentC9.age := by
  constructor
  · simp [GeneralAgent.step, thresholdCheck, checkThreshold, thresholdStorages,
      ratioLookup, envC9, agentC9, List.find?]
    norm_num
  · show (6 : ℚ) ≠ 5
    norm_num

/-- C9 amended witness: a completing step advances the age by the model's
hours-per-step. -/
theorem C9_amended_witness :
    (GeneralAgent.step envC9 (1 / 1000000000000) agentC9quiet storagesC9).map
        (fun r => r.agent.age) =
      some (agentC9quiet.age + envC9.hoursPerStep) := by
  obtain ⟨r, hr⟩ : ∃ r, GeneralAgent.step envC9 (1 / 1000000000000) agentC9quiet
      storagesC9 = some r := ⟨_, rfl⟩
  rw [hr, Option.map_some']
  rw [C9_amended envC9 (1 / 1000000000000) agentC9quiet storagesC9 r hr]

end SIMOC
